import Mathlib

/-!
Verification development for the Microsoft-update fetcher
(`get_microsoft_patches.py`).  The Python functions that the claims are
about are shallowly embedded as executable Lean definitions: strings are
Lean `String`s (processed through their underlying `List Char`), Python
values that can flow into the flat output records are the inductive
`PyVal`, Python `dict`s are association lists, and Python exceptions are
`Except`/`Option` results.
-/

set_option maxHeartbeats 1000000

/-- Rebuild a `String` from its character list. -/
def ofChars (l : List Char) : String := String.mk l

/-- The characters Python's `str.strip()` removes (ASCII whitespace; the
rare unicode whitespace classes are not modelled). -/
def isPyWS (c : Char) : Bool :=
  c == ' ' || c == '\t' || c == '\n' || c == '\r' || c == '\x0b' || c == '\x0c'

/-- Core of Python `str.strip()` on a character list: drop whitespace from
both ends. -/
def stripChars (l : List Char) : List Char :=
  ((l.dropWhile isPyWS).reverse.dropWhile isPyWS).reverse

/-- Python `str.strip()`. -/
def pyStrip (s : String) : String := ofChars (stripChars s.data)

/-- Python `str.lower()` (ASCII case folding, as needed for the scraped
ASCII markers such as `"kb"` and `"n/a"`). -/
def pyLower (s : String) : String := ofChars (s.data.map Char.toLower)

/-- `chStartsWith needle hay` is true iff `needle` is a prefix of `hay`. -/
def chStartsWith : List Char → List Char → Bool
  | [], _ => true
  | _ :: _, [] => false
  | a :: as, b :: bs => a == b && chStartsWith as bs

/-- `chHasSub needle hay`: `needle` occurs as a contiguous sublist of
`hay`.  This is Python's `needle in hay` for strings. -/
def chHasSub (needle : List Char) : List Char → Bool
  | [] => chStartsWith needle []
  | c :: rest => chStartsWith needle (c :: rest) || chHasSub needle rest

/-- Python `needle in hay` on strings. -/
def pyIn (needle hay : String) : Bool := chHasSub needle.data hay.data

/-- Python `hay.endswith suffix`, used to talk about which unit (" GB" /
" MB") a rendered size string carries. -/
def pyEndsWith (suffix s : String) : Bool :=
  chStartsWith suffix.data.reverse s.data.reverse

/-- Python `str.split(sep)` for a one-character separator (the code only
ever splits on `"\n"`): every occurrence splits, empty pieces are kept. -/
def splitOnChar (sep : Char) : List Char → List (List Char)
  | [] => [[]]
  | c :: cs =>
    let r := splitOnChar sep cs
    if c == sep then [] :: r
    else
      match r with
      | [] => [[c]]
      | h :: t => (c :: h) :: t

/-- Python `str.replace(needle, repl)` (all non-overlapping occurrences,
scanning left to right).  `fuel` bounds the recursion; one character is
consumed per step, so `fuel = length of the input` always suffices. -/
def replaceChars (needle repl : List Char) : Nat → List Char → List Char
  | _, [] => []
  | 0, l => l
  | Nat.succ fuel, c :: cs =>
    if chStartsWith needle (c :: cs) then
      repl ++ replaceChars needle repl fuel (List.drop needle.length (c :: cs))
    else
      c :: replaceChars needle repl fuel cs

/-- Python `str.replace` on strings. -/
def pyReplace (s needle repl : String) : String :=
  ofChars (replaceChars needle.data repl.data s.data.length s.data)

/-- The run of ASCII digits at the head of a character list (Python's
per-character `isdigit()` loop; unicode digits are not modelled). -/
def takeDigits : List Char → List Char
  | [] => []
  | c :: cs => if c.isDigit then c :: takeDigits cs else []

/-- The digit run immediately after the first occurrence of `"kb"`, or
`none` when `"kb"` does not occur.  This is the
`index("kb") + 2` / accumulate-digits-until-non-digit loop that appears
twice in the source (title parsing and file-name parsing). -/
def digitsAfterKb : List Char → Option (List Char)
  | [] => none
  | c :: cs =>
    if c == 'k' then
      match cs with
      | [] => none
      | c2 :: cs2 => if c2 == 'b' then some (takeDigits cs2) else digitsAfterKb cs
    else digitsAfterKb cs

/-- Value of a nonempty all-digit character list. -/
def natOfDigits : List Char → Option Nat
  | [] => none
  | [c] => if c.isDigit then some (c.toNat - '0'.toNat) else none
  | c :: cs =>
    if c.isDigit then
      (natOfDigits cs).map (fun n => (c.toNat - '0'.toNat) * 10 ^ cs.length + n)
    else none

/-- Python `int(s)` on a string: strip whitespace, allow one sign, then
at least one ASCII digit; anything else raises `ValueError` (`none`).
(Underscore digit grouping and unicode digits are not modelled; the
scraped inputs are plain ASCII numerals.) -/
def pyIntParse (s : String) : Option Int :=
  match (pyStrip s).data with
  | '+' :: ds => (natOfDigits ds).map (fun n => (n : Int))
  | '-' :: ds => (natOfDigits ds).map (fun n => -(n : Int))
  | ds => (natOfDigits ds).map (fun n => (n : Int))

/-- Python values that flow into the flat output records. -/
inductive PyVal where
  | vNone
  | vBool (b : Bool)
  | vInt (n : Int)
  | vStr (s : String)
  | vList (xs : List PyVal)
  | vDict (kvs : List (String × PyVal))

/-- A Python `dict` with string keys, as an ordered association list
(Python dicts preserve insertion order). -/
abbrev PyDict := List (String × PyVal)

/-- Python `d.get(k)`: `none` models both a missing key and is
distinguished from an explicit `None` value (`some .vNone`). -/
def pyGet (d : PyDict) (k : String) : Option PyVal :=
  (d.find? (fun kv => kv.fst == k)).map (fun kv => kv.snd)

/-- Python `d[k] = v`: overwrite in place if the key exists (keeping its
position), otherwise append the new key at the end. -/
def setKey (d : PyDict) (k : String) (v : PyVal) : PyDict :=
  if (d.find? (fun kv => kv.fst == k)).isSome then
    d.map (fun kv => if kv.fst == k then (k, v) else kv)
  else d ++ [(k, v)]

/-- Python truthiness of the modelled values. -/
def pyTruthy : PyVal → Bool
  | .vNone => false
  | .vBool b => b
  | .vInt n => n != 0
  | .vStr s => !s.isEmpty
  | .vList xs => !xs.isEmpty
  | .vDict kvs => !kvs.isEmpty

/-- Python `==` as it occurs in the supersedes filter
`update["title"] == super_seed`: the left operand is always the record's
`"title"` value, a `str`.  In Python a `str` compares equal only to an
equal `str`; comparing a `str` with a list, `None`, a number or a dict is
`False`. -/
def pyStrEqVal : PyVal → PyVal → Bool
  | .vStr x, .vStr y => x == y
  | _, _ => false

/-- Truthiness of an optional string (Python's `if not value:` over a
variable holding `None` or a `str`). -/
def optTruthy : Option String → Bool
  | none => false
  | some s => !s.isEmpty

/-- Monadic map over `Option`: `none` as soon as `f` fails, mirroring a
Python loop that is aborted by the first exception. -/
def optMapM (f : α → Option β) : List α → Option (List β)
  | [] => some []
  | a :: as =>
    match f a, optMapM f as with
    | some b, some bs => some (b :: bs)
    | _, _ => none

example : pyStrip "  a b\r\n" = "a b" := by decide
example : pyLower "KB5034123" = "kb5034123" := by decide
example : pyIn "kb" "xxkby" = true := by decide
example : pyIn "kb" "xkxb" = false := by decide
example : splitOnChar '\n' "a\nb".data = ["a".data, "b".data] := by decide
example : pyReplace "A\n\r\nB" "\n\r\n" " " = "A B" := by decide
example : digitsAfterKb "(kb5034123)".data = some "5034123".data := by decide
example : pyIntParse " 453 " = some 453 := by decide
example : pyIntParse "abc" = none := by decide
example : pyIntParse "-12" = some (-12) := by decide

/-! ## The `WindowsUpdate` detail-page properties -/

/-- Python exceptions that the modelled detail-page parsing can raise. -/
inductive PyErr where
  | parseError
  | attributeError
  deriving DecidableEq, Repr

/-- Core of the `WindowsUpdate.superseeds` property, on the raw
`get_text()` of a present `supersedesInfo` container: strip the text; if
the stripped text is empty the value is that empty text; otherwise
replace every `"\n\r\n"` by `" "`, split on `"\n"`, strip each entry,
drop entries that are empty after stripping, delete every `"\r"` inside
the survivors (`x.replace("\r", "")` deletes all carriage returns), and
the value is that list — or, if the list came out empty, the replaced
text (`superseeds_list if superseeds_list else superseeds_text`). -/
def superseedsCore (raw : List Char) : PyVal :=
  match stripChars raw with
  | [] => .vStr ""
  | t =>
    match (((splitOnChar '\n' (replaceChars "\n\r\n".data " ".data t.length t)).map
        stripChars).filter (fun x => !x.isEmpty)).map
        (fun x => x.filter (fun c => !(c == '\r'))) with
    | [] => .vStr (ofChars (replaceChars "\n\r\n".data " ".data t.length t))
    | es => .vList (es.map (fun e => .vStr (ofChars e)))

/-- The `WindowsUpdate.superseeds` property.  `none` models a detail page
with no `supersedesInfo` container (the property answers the literal
string `"None"`); `some raw` models a present container whose
`get_text()` is `raw`. -/
def WindowsUpdate.superseeds (container : Option String) : PyVal :=
  match container with
  | none => .vStr "None"
  | some raw => superseedsCore raw.data

/-- The `WindowsUpdate.kb_numbers` property.  `none` models an absent
`ScopedViewHandler_labelKBArticle_Separator` marker (the guard
`raw_kb and ...` is false and the cached `None` is returned);
`some sibs` models a present marker whose following sibling text nodes
are `sibs`.  An empty sibling list makes `raw_kb.next_sibling.strip()`
blow up on `None` (`AttributeError`); a blank first sibling leaves the
field `None`; otherwise every sibling whose stripped lowered text is not
`"n/a"` is parsed with `int`, and a non-numeric sibling raises
`ValueError` (modelled as `parseError`). -/
def WindowsUpdate.kb_numbers (kbMarker : Option (List String)) :
    Except PyErr (Option (List Int)) :=
  match kbMarker with
  | none => .ok none
  | some [] => .error .attributeError
  | some (s0 :: rest) =>
    if (pyStrip s0).isEmpty then .ok none
    else
      match optMapM (fun n => pyIntParse (pyStrip n))
          ((s0 :: rest).filter (fun n => pyLower (pyStrip n) != "n/a")) with
      | some vals => .ok (some vals)
      | none => .error .parseError

/-! ## Size rendering

`convert_bytes_to_human_readable` computes `size_bytes / 1024**3` in
Python floats and compares it with the threshold `1`.  For an integer
byte count `n` with `|n| < 2^53` both `n` and `n / 2^30` are exactly
representable (dividing by a power of two only shifts the exponent), so
the float comparison `n / 2**30 >= 1` holds exactly when `2^30 ≤ n`; for
`|n| ≥ 2^53` rounding `n` to a float cannot move it across the
representable bound `2^30`, so the same equivalence holds.  The `%.2f`
formatting of the exact value `n / d` is decimal rounding of `n*100/d`
to an integer with ties to even, rendered with two decimals and a `-`
sign for negative inputs (Python prints `-0.00` for tiny negatives). -/

/-- Round `num / den` to the nearest integer, ties to even. -/
def roundHalfEven (num den : Nat) : Nat :=
  let q := num / den
  let r := num % den
  if den < 2 * r then q + 1
  else if 2 * r < den then q
  else if q % 2 = 0 then q else q + 1

/-- Render a value given in hundredths as `"X.YY"`. -/
def formatHundredths (h : Nat) : String :=
  toString (h / 100) ++ "." ++ (if h % 100 < 10 then "0" else "") ++ toString (h % 100)

/-- Python `f"{n / den:.2f}"` for an integer `n` and positive power of
two `den` (the exact-rational reading justified above). -/
def formatTwoDec (n : Int) (den : Nat) : String :=
  (if n < 0 then "-" else "") ++ formatHundredths (roundHalfEven (n.natAbs * 100) den)

/-- `convert_bytes_to_human_readable` with its default `threshold_gb=1`
(the only way the script calls it): GB branch when
`size_bytes / 1024**3 >= 1`, i.e. `2^30 ≤ size_bytes`, else MB. -/
def convert_bytes_to_human_readable (size_bytes : Int) : String :=
  if 1073741824 ≤ size_bytes then formatTwoDec size_bytes 1073741824 ++ " GB"
  else formatTwoDec size_bytes 1048576 ++ " MB"

/-! ## Per-file download-descriptor helpers of the fallback scraper -/

/-- Python `int(x)` on a value read out of a descriptor dict: `none`
models the `TypeError`/`ValueError` of `int(None)`, `int` of a missing
key, of a list/dict, or of a non-numeric string.  (`int(True) == 1`.) -/
def pyIntOfVal : Option PyVal → Option Int
  | some (.vInt n) => some n
  | some (.vStr s) => pyIntParse s
  | some (.vBool b) => some (cond b 1 0)
  | _ => none

/-- The accumulation loop of `get_update_size`:
`file_size += int(download_link_detail.get("size"))`, aborted by the
first failing conversion. -/
def sumFileSizes : List PyDict → Option Int
  | [] => some 0
  | d :: rest =>
    match pyIntOfVal (pyGet d "size"), sumFileSizes rest with
    | some n, some m => some (n + m)
    | _, _ => none

/-- `get_update_size`: render the summed sizes, `"N/A"` on any failure
(the bare `except` around the loop). -/
def get_update_size (download_details : List PyDict) : String :=
  match sumFileSizes download_details with
  | some total => convert_bytes_to_human_readable total
  | none => "N/A"

/-- `get_version_number`: a loop that returns on its first iteration, so
the `"version"` of the first descriptor (`.vNone` for Python's implicit
`None` on an empty list or a missing key). -/
def get_version_number (download_details : List PyDict) : PyVal :=
  match download_details with
  | [] => .vNone
  | d :: _ => (pyGet d "version").getD .vNone

/-- `get_last_updated`: same shape as `get_version_number`, reading
`"datePublished"`. -/
def get_last_updated (download_details : List PyDict) : PyVal :=
  match download_details with
  | [] => .vNone
  | d :: _ => (pyGet d "datePublished").getD .vNone

/-- `get_architecture`: walk the descriptors in order; the first one
whose `"name"` contains `"64"` answers `"x64"`, else one containing
`"32"`, or `"86"` without `"64"`, answers `"x86"`; a missing or
non-string name raises `TypeError`, which the bare `except` turns into
`None`; if the loop finishes the function falls through to `None`. -/
def get_architecture : List PyDict → Option String
  | [] => none
  | d :: rest =>
    match pyGet d "name" with
    | some (.vStr name) =>
      if pyIn "64" name then some "x64"
      else if pyIn "32" name || (pyIn "86" name && !pyIn "64" name) then some "x86"
      else get_architecture rest
    | _ => none

/-- `get_kb_number`: the first descriptor whose lowered `"name"`
contains `"kb"` answers the digit run right after that `"kb"` (possibly
the empty string — the loop `return`s without looking at later files); no
such descriptor answers `None`; a missing or non-string name raises and
the bare `except` answers `None`. -/
def get_kb_number : List PyDict → Option String
  | [] => none
  | d :: rest =>
    match pyGet d "name" with
    | some (.vStr nm) =>
      match digitsAfterKb (pyLower nm).data with
      | some ds => some (ofChars ds)
      | none => get_kb_number rest
    | _ => none

/-! ## The download-center fallback scraper -/

/-- The `parsed_dict["kb"]` slot of `get_microsoft_windows_product_update`
taken from the title: when `"kb"` occurs in the lowered title, the digit
run right after its first occurrence (possibly empty); otherwise the key
is never written (`none`). -/
def titleKb (download_title : String) : Option String :=
  (digitsAfterKb (pyLower download_title).data).map ofChars

/-- The final `parsed_dict.get("kb")` after the fallback step
`if not parsed_dict.get("kb") and get_kb_number(...): parsed_dict["kb"] = get_kb_number(...)`. -/
def derived_page_kb (download_title : String) (download_file : List PyDict) :
    Option String :=
  let k0 := titleKb download_title
  if !optTruthy k0 && optTruthy (get_kb_number download_file) then
    get_kb_number download_file
  else k0

/-- `patch_kb = update.get("kb"); if not patch_kb: patch_kb = kb` in
`get_microsoft_download_center_update`. -/
def resolvedKb (page_kb : Option String) (search_kb : String) : String :=
  match page_kb with
  | none => search_kb
  | some s => if s.isEmpty then search_kb else s

/-- The KB number a fallback record ends up with, as a function of the
download title, the file descriptors and the caller-supplied search KB. -/
def record_kb (download_title : String) (download_file : List PyDict)
    (search_kb : String) : String :=
  resolvedKb (derived_page_kb download_title download_file) search_kb

/-- The four sub-literals that `get_microsoft_windows_product_update`
slices out of the `window.__DLCDetails__` script payload. -/
structure DlcPage where
  downloadFile : List PyDict
  downloadTitle : String
  downloadDescription : String
  operatingSystem : String

/-- The `parsed_dict` that `get_microsoft_windows_product_update` appends
to `update_details` for its single hardcoded English locale. -/
structure ParsedUpdate where
  download_info : List PyDict
  update_size : String
  version : PyVal
  last_updated : PyVal
  architecture : Option String
  title : String
  kb : Option String
  description : String
  supported_products : String
  language : String
  update_url : String

/-- Lines 598–655 of the source: assemble `parsed_dict` from the sliced
script literals and the canonical page URL. -/
def buildParsedUpdate (page : DlcPage) (update_url : String) : ParsedUpdate :=
  { download_info := page.downloadFile
    update_size := get_update_size page.downloadFile
    version := get_version_number page.downloadFile
    last_updated := get_last_updated page.downloadFile
    architecture := get_architecture page.downloadFile
    title := page.downloadTitle
    kb := derived_page_kb page.downloadTitle page.downloadFile
    description := page.downloadDescription
    supported_products := page.operatingSystem
    language := "English"
    update_url := update_url }

/-! ## `json.dumps` of the fallback `download_urls`

The serialized value is always a list of flat file-descriptor dicts whose
values are scalars (`name`, `url`, `size`, `version`, `datePublished`
plus the added `download_link` / `file_name` aliases), so the encoder is
specialized to that shape; nested containers cannot occur inside a
descriptor and an encoder case for them is never reached.  Python's
default separators (`", "`, `": "`) and the basic string escapes are
modelled; `\uXXXX` escaping of non-ASCII text is not. -/

/-- JSON string-body escaping of the common escapes. -/
def jsonEscapeChars : List Char → List Char
  | [] => []
  | c :: cs =>
    (if c == '"' then ['\\', '"']
     else if c == '\\' then ['\\', '\\']
     else if c == '\n' then ['\\', 'n']
     else if c == '\t' then ['\\', 't']
     else if c == '\r' then ['\\', 'r']
     else [c]) ++ jsonEscapeChars cs

/-- JSON encoding of one scalar value (the container cases are
unreachable for descriptor fields, see the section comment). -/
def jsonDumpScalar : PyVal → String
  | .vNone => "null"
  | .vBool b => if b then "true" else "false"
  | .vInt n => toString n
  | .vStr s => "\"" ++ ofChars (jsonEscapeChars s.data) ++ "\""
  | .vList _ => "[]"
  | .vDict _ => "\x7b\x7d"

/-- Comma-join with Python's default `", "` item separator. -/
def joinComma : List String → String
  | [] => ""
  | [x] => x
  | x :: xs => x ++ ", " ++ joinComma xs

/-- JSON encoding of one flat descriptor dict. -/
def jsonDumpFlatDict (d : PyDict) : String :=
  "\x7b" ++
    joinComma (d.map (fun kv =>
      "\"" ++ ofChars (jsonEscapeChars kv.fst.data) ++ "\": " ++ jsonDumpScalar kv.snd)) ++
  "\x7d"

/-- `json.dumps(download_urls)`: a JSON array of flat dicts. -/
def jsonDumpDictList (ds : List PyDict) : String :=
  "[" ++ joinComma (ds.map jsonDumpFlatDict) ++ "]"

/-! ## `get_microsoft_download_center_update` -/

/-- The per-descriptor mutation
`download_link_detail["download_link"] = download_link_detail["url"]` /
`["file_name"] = ["name"]`; a descriptor without `"url"` or `"name"`
raises `KeyError` (the whole call then returns `[]`). -/
def augmentDescriptor (d : PyDict) : Option PyDict :=
  match pyGet d "url", pyGet d "name" with
  | some u, some n => some (setKey (setKey d "download_link" u) "file_name" n)
  | _, _ => none

/-- The flat dict appended to `patch_list` for one `ParsedUpdate`
(lines 733–755 of the source), given the already-augmented
`download_urls` descriptors. -/
def download_center_record (update : ParsedUpdate) (kb : String)
    (download_urls : List PyDict) : PyDict :=
  [("kb", .vStr (resolvedKb update.kb kb)),
   ("title", .vStr update.title),
   ("kb_numbers", .vStr (resolvedKb update.kb kb)),
   ("version", update.version),
   ("last_updated", update.last_updated),
   ("classification", .vStr "Product Update"),
   ("languages", .vStr update.language),
   ("superseeds", .vStr "None"),
   ("msrc_number", .vStr "None"),
   ("msrc_severity", .vStr "None"),
   ("products_applicable", .vStr update.supported_products),
   ("architecture", match update.architecture with | some a => .vStr a | none => .vNone),
   ("uninstallable", .vStr "Yes"),
   ("requires_connectivity", .vStr "No"),
   ("requires_user_input", .vStr "No"),
   ("requires_restart", .vStr "Yes"),
   ("update_size", .vStr update.update_size),
   ("more_info", .vStr update.update_url),
   ("description", .vStr update.description),
   ("support_url", .vStr ("https://support.microsoft.com/help/" ++ resolvedKb update.kb kb)),
   ("download_urls", .vStr (jsonDumpDictList download_urls))]

/-- `get_microsoft_download_center_update`, from the `update_details`
list its page scrape produced: an empty list prints and returns `[]`;
otherwise one flat record per update, and any `KeyError` inside the loop
is caught by the broad `except`, which discards the partial `patch_list`
and returns `[]`. -/
def get_microsoft_download_center_update (update_details : List ParsedUpdate)
    (kb : String) : List PyDict :=
  match update_details with
  | [] => []
  | _ :: _ =>
    match optMapM
        (fun u => (optMapM augmentDescriptor u.download_info).map
          (download_center_record u kb)) update_details with
    | some recs => recs
    | none => []

/-! ## The catalog path: `find_microsoft_catelogue_updates` -/

/-- The already-resolved fields of one `WindowsUpdate` object as the
catalog normalizer reads them (each field an answer of the corresponding
property on the scraped pages). -/
structure UpdateData where
  kb_numbers : PyVal
  title : String
  id : String
  version : String
  last_updated : String
  classification : String
  languages : String
  superseeds : PyVal
  msrc_number : PyVal
  msrc_severity : PyVal
  product : String
  architecture : String
  is_installable : Bool
  requires_connectivity : String
  requires_user_input : String
  requires_restart : String
  size : String
  more_information : String
  descriptions : String
  support_url : String
  download_urls : List (String × String)

/-- The `update_details` dict built per update in
`find_microsoft_catelogue_updates` (lines 403–433), with
`download_urls` assigned last as a list of `file_name`/`download_link`
dicts. -/
def buildCatalogRecord (update : UpdateData) : PyDict :=
  [("kb", update.kb_numbers),
   ("title", .vStr update.title),
   ("update_id", .vStr update.id),
   ("kb_number", update.kb_numbers),
   ("version", .vStr update.version),
   ("last_updated", .vStr update.last_updated),
   ("classification", .vStr update.classification),
   ("languages", .vStr update.languages),
   ("superseeds", update.superseeds),
   ("msrc_number", update.msrc_number),
   ("msrc_severity", update.msrc_severity),
   ("products_applicable", .vStr (if update.product.isEmpty then "" else pyLower update.product)),
   ("architecture", .vStr update.architecture),
   ("uninstallable", .vBool update.is_installable),
   ("requires_connectivity", .vStr update.requires_connectivity),
   ("requires_user_input", .vStr update.requires_user_input),
   ("requires_restart", .vStr update.requires_restart),
   ("update_size", .vStr update.size),
   ("more_info", .vStr update.more_information),
   ("description", .vStr update.descriptions),
   ("support_url", .vStr update.support_url),
   ("download_urls", .vList (update.download_urls.map
     (fun fu => .vDict [("file_name", .vStr fu.fst), ("download_link", .vStr fu.snd)])))]

/-- `super_seeds_list`: per record, in order, when
`update_details["title"]` and `update_details['superseeds']` are both
truthy, the WHOLE `superseeds` value is appended (`.append`, not
`.extend` — a list value goes in as one element). -/
def collected_super_seeds (records : List PyDict) : List PyVal :=
  records.filterMap (fun r =>
    if pyTruthy ((pyGet r "title").getD .vNone) &&
       pyTruthy ((pyGet r "superseeds").getD .vNone) then
      some ((pyGet r "superseeds").getD .vNone)
    else none)

/-- `find_microsoft_catelogue_updates`, from the updates the catalog walk
yields: build one record per update; if no records, return `None`;
otherwise keep exactly the records whose `"title"` compares `==` equal to
no element of `super_seeds_list`. -/
def find_microsoft_catelogue_updates (found_updates : List UpdateData) :
    Option (List PyDict) :=
  match found_updates.map buildCatalogRecord with
  | [] => none
  | r0 :: rs =>
    some ((r0 :: rs).filter (fun r =>
      !((collected_super_seeds (r0 :: rs)).any
        (fun ss => pyStrEqVal ((pyGet r "title").getD .vNone) ss))))

/-! ## Claim-side (spec-worded) definitions, for refutation targets -/

/-- Modelled from the claim wording for the `superseeds` property (no
`"\n\r\n" → " "` replacement): the container text split on newlines,
carriage returns and surrounding whitespace stripped from each entry,
empty entries dropped. -/
def superseeds_claim_spec (container : Option String) : PyVal :=
  match container with
  | none => .vStr "None"
  | some raw =>
    match stripChars raw.data with
    | [] => .vStr ""
    | t =>
      let entries :=
        (((splitOnChar '\n' t).map stripChars).filter (fun x => !x.isEmpty)).map
          (fun x => x.filter (fun c => !(c == '\r')))
      .vList (entries.map (fun e => .vStr (ofChars e)))

/-- Modelled from the spec (§4.4): "collect every record's supersedes
value into a flat list of titles; then drop from the final list any
record whose title exactly equals one of the collected supersedes
titles."  A list-valued `superseeds` contributes its entries, a truthy
string value contributes itself. -/
def claim_filtered_updates (found_updates : List UpdateData) : List PyDict :=
  let records := found_updates.map buildCatalogRecord
  let entries := records.flatMap (fun r =>
    match (pyGet r "superseeds").getD .vNone with
    | .vList xs => xs.filterMap (fun x => match x with | .vStr s => some s | _ => none)
    | .vStr s => if s.isEmpty then [] else [s]
    | _ => [])
  records.filter (fun r =>
    match (pyGet r "title").getD .vNone with
    | .vStr t => !(entries.contains t)
    | _ => true)

/-- The flat field set of the §3 invariant, with the path-dependent
third key (`update_id` on the catalog path, `kb_numbers` on the fallback
path) passed in. -/
def claim_record_keys (idKey : String) : List String :=
  ["kb", "title", idKey, "version", "last_updated", "classification",
   "languages", "superseeds", "msrc_number", "msrc_severity",
   "products_applicable", "architecture", "uninstallable",
   "requires_connectivity", "requires_user_input", "requires_restart",
   "update_size", "more_info", "description", "support_url", "download_urls"]

/-! ## Concrete sample inputs used by witnesses and counterexamples -/

/-- A catalog update row/detail with the given title and `superseeds`
property value, with all remaining fields fixed to plausible scraped
text. -/
def sampleUpdate (title : String) (ss : PyVal) : UpdateData :=
  { kb_numbers := .vList [.vInt 1111111]
    title := title
    id := "9f2f6b7a-0000-0000-0000-000000000000"
    version := "1.0"
    last_updated := "2020-01-01 00:00:00"
    classification := "Security Updates"
    languages := "all"
    superseeds := ss
    msrc_number := .vNone
    msrc_severity := .vNone
    product := "Windows 10"
    architecture := "AMD64"
    is_installable := true
    requires_connectivity := "No"
    requires_user_input := "No"
    requires_restart := "Yes"
    size := "25.5 MB"
    more_information := "https://support.microsoft.com/kb/1111111"
    descriptions := "A sample update."
    support_url := "https://support.microsoft.com/kb/1111111"
    download_urls := [("w10-kb1111111-x64.msu", "https://catalog.s.download.windowsupdate.com/d/w10-kb1111111-x64.msu")] }

/-- One download-center file descriptor as sliced out of the
`downloadFile` script literal. -/
def sampleDescriptor : PyDict :=
  [("name", .vStr "windows-kb5034123-x64.msu"),
   ("url", .vStr "https://download.microsoft.com/a/windows-kb5034123-x64.msu"),
   ("size", .vStr "1048576"),
   ("version", .vStr "1809"),
   ("datePublished", .vStr "1/9/2024")]

/-- A fallback-path `ParsedUpdate` as `get_microsoft_windows_product_update`
builds it from a page whose `downloadFile` literal is
`[sampleDescriptor]`. -/
def sampleParsedUpdate : ParsedUpdate :=
  buildParsedUpdate
    { downloadFile := [sampleDescriptor]
      downloadTitle := "2024-01 Update for Windows (KB5034123)"
      downloadDescription := "A sample download."
      operatingSystem := "Windows 10" }
    "https://www.microsoft.com/en-us/download/details.aspx?id=105652"

example :
    (find_microsoft_catelogue_updates
      [sampleUpdate "Title A" (WindowsUpdate.superseeds (some "Title B")),
       sampleUpdate "Title B" (WindowsUpdate.superseeds none)]).map List.length
    = some 2 := by rfl
example :
    (claim_filtered_updates
      [sampleUpdate "Title A" (WindowsUpdate.superseeds (some "Title B")),
       sampleUpdate "Title B" (WindowsUpdate.superseeds none)]).length = 1 := by rfl
example : WindowsUpdate.superseeds (some "Title B") = .vList [.vStr "Title B"] := by rfl
example : WindowsUpdate.superseeds (some "A\n\r\nB") = .vList [.vStr "A B"] := by rfl
example : superseeds_claim_spec (some "A\n\r\nB") = .vList [.vStr "A", .vStr "B"] := by rfl
example : WindowsUpdate.superseeds (some "  ") = .vStr "" := by rfl
example : get_architecture [[("name", .vStr "update-ia64.exe")]] = some "x64" := by rfl
example : get_architecture [[("name", .vStr "update-32.msu")], [("name", .vStr "update-64.msu")]] = some "x86" := by rfl
example : record_kb "2024-01 Update for Windows (KB5034123)" [] "9999999" = "5034123" := by rfl
example : sampleParsedUpdate.kb = some "5034123" := by rfl
example : convert_bytes_to_human_readable 1073741824 = "1.00 GB" := by decide
example : convert_bytes_to_human_readable 1048576 = "1.00 MB" := by decide
example : get_update_size [sampleDescriptor] = "1.00 MB" := by decide
example : get_update_size [[("size", .vStr "oops")]] = "N/A" := by rfl
example : WindowsUpdate.kb_numbers (some ["n/a"]) = .ok (some []) := by rfl
example : WindowsUpdate.kb_numbers (some ["4530684"]) = .ok (some [4530684]) := by rfl
example : WindowsUpdate.kb_numbers (some ["abc"]) = .error .parseError := by rfl

/-! ## Helper lemmas -/

theorem str_eq_of_data_eq {a b : String} (h : a.data = b.data) : a = b :=
  congrArg String.mk h

theorem str_isEmpty_false_of_ne {s : String} (h : s ≠ "") : s.isEmpty = false := by
  cases hb : s.isEmpty
  · rfl
  · exact absurd ((String.isEmpty_iff s).mp hb) h

theorem chStartsWith_same (l t : List Char) : chStartsWith l (l ++ t) = true := by
  induction l with
  | nil => rfl
  | cons a as ih => simp [chStartsWith, ih]

theorem chStartsWith_append_same_length :
    ∀ (l₁ l₂ t : List Char), l₁.length = l₂.length →
      chStartsWith l₁ (l₂ ++ t) = true → l₁ = l₂ := by
  intro l₁
  induction l₁ with
  | nil =>
    intro l₂ t hlen _h
    have : l₂ = [] := List.length_eq_zero.mp hlen.symm
    simp [this]
  | cons a as ih =>
    intro l₂ t hlen h
    cases l₂ with
    | nil => simp at hlen
    | cons b bs =>
      rw [List.cons_append] at h
      simp only [chStartsWith, Bool.and_eq_true, beq_iff_eq] at h
      obtain ⟨hab, hrest⟩ := h
      have htail : as = bs := ih bs t (by simpa using hlen) hrest
      simp [hab, htail]

theorem pyEndsWith_append (x s : String) : pyEndsWith s (x ++ s) = true := by
  unfold pyEndsWith
  rw [String.data_append, List.reverse_append]
  exact chStartsWith_same _ _

theorem pyEndsWith_append_ne {s₁ s₂ : String} (x : String)
    (hlen : s₁.data.length = s₂.data.length) (hne : s₁ ≠ s₂) :
    pyEndsWith s₁ (x ++ s₂) = false := by
  cases hb : pyEndsWith s₁ (x ++ s₂)
  · rfl
  · exfalso
    unfold pyEndsWith at hb
    rw [String.data_append, List.reverse_append] at hb
    have h2 := chStartsWith_append_same_length _ _ _ (by simp [hlen]) hb
    have h3 : s₁.data = s₂.data := by
      have h4 := congrArg List.reverse h2
      simpa using h4
    exact hne (str_eq_of_data_eq h3)

/-! ## Claim theorems -/

/-- Claim C10: `get_version_number` answers the `"version"` of the first
descriptor only and `get_last_updated` the `"datePublished"` of the
first descriptor only, whatever the later descriptors hold, and both
answer `None` on an empty descriptor list. -/
theorem version_and_date_from_first_descriptor :
    ∀ (d : PyDict) (rest rest' : List PyDict),
      get_version_number (d :: rest) = (pyGet d "version").getD .vNone ∧
      get_last_updated (d :: rest) = (pyGet d "datePublished").getD .vNone ∧
      get_version_number (d :: rest) = get_version_number (d :: rest') ∧
      get_last_updated (d :: rest) = get_last_updated (d :: rest') ∧
      get_version_number [] = .vNone ∧
      get_last_updated [] = .vNone := by
  intro d rest rest'
  exact ⟨rfl, rfl, rfl, rfl, rfl, rfl⟩

/-- Claim C4: `convert_bytes_to_human_readable 1073741824 = "1.00 GB"`,
`convert_bytes_to_human_readable 1048576 = "1.00 MB"`, and for every
byte count the GB unit is emitted exactly when the count is at least
`2^30 = 1073741824` and the MB unit exactly otherwise. -/
theorem convert_bytes_examples_and_threshold :
    convert_bytes_to_human_readable 1073741824 = "1.00 GB" ∧
    convert_bytes_to_human_readable 1048576 = "1.00 MB" ∧
    (∀ n : Int,
      (pyEndsWith " GB" (convert_bytes_to_human_readable n) = true ↔ 1073741824 ≤ n) ∧
      (pyEndsWith " MB" (convert_bytes_to_human_readable n) = true ↔ n < 1073741824)) := by
  refine ⟨by decide, by decide, ?_⟩
  intro n
  unfold convert_bytes_to_human_readable
  by_cases h : (1073741824 : Int) ≤ n
  · rw [if_pos h]
    constructor
    · exact ⟨fun _ => h, fun _ => pyEndsWith_append _ _⟩
    · constructor
      · intro hend
        rw [pyEndsWith_append_ne _ (by decide) (by decide)] at hend
        exact absurd hend (by simp)
      · intro hlt
        exact absurd h (by omega)
  · rw [if_neg h]
    constructor
    · constructor
      · intro hend
        rw [pyEndsWith_append_ne _ (by decide) (by decide)] at hend
        exact absurd hend (by simp)
      · intro hc
        exact absurd hc h
    · exact ⟨fun _ => by omega, fun _ => pyEndsWith_append _ _⟩

/-- Claim C3: `kb_numbers` treats a sibling text equal to `"n/a"`
(case-insensitively, after stripping) as yielding an empty KB list,
parses `"4530684"` to `[4530684]`, and fails with a parse error on a
non-numeric sibling such as `"abc"`. -/
theorem kb_numbers_na_number_and_malformed :
    (∀ s : String, pyLower (pyStrip s) = "n/a" →
      WindowsUpdate.kb_numbers (some [s]) = .ok (some [])) ∧
    WindowsUpdate.kb_numbers (some ["4530684"]) = .ok (some [4530684]) ∧
    WindowsUpdate.kb_numbers (some ["abc"]) = .error .parseError := by
  refine ⟨?_, by rfl, by rfl⟩
  intro s h
  have hne : pyStrip s ≠ "" := by
    intro he
    rw [he] at h
    exact absurd h (by decide)
  have hb : (pyStrip s).isEmpty = false := str_isEmpty_false_of_ne hne
  simp [WindowsUpdate.kb_numbers, hb, List.filter, h, optMapM]

/-- Claim C3 witness: the case-insensitive `"n/a"` case at the concrete
sibling `" N/A "`. -/
theorem kb_numbers_na_number_and_malformed_witness :
    WindowsUpdate.kb_numbers (some [" N/A "]) = .ok (some []) :=
  kb_numbers_na_number_and_malformed.1 " N/A " (by decide)

/-- Claim C7: the KB of a fallback record is taken (a) from the digit
run after `"kb"` in the lowered download title when that run is
nonempty, else (b) from the `"kb<digits>"` scan of the file names when
that yields a nonempty digit run, else (c) from the caller-supplied
search KB. -/
theorem record_kb_priority :
    ∀ (download_title : String) (download_file : List PyDict) (search_kb : String),
      (∀ s, titleKb download_title = some s → s ≠ "" →
        record_kb download_title download_file search_kb = s) ∧
      (optTruthy (titleKb download_title) = false →
        ∀ s, get_kb_number download_file = some s → s ≠ "" →
          record_kb download_title download_file search_kb = s) ∧
      (optTruthy (titleKb download_title) = false →
        optTruthy (get_kb_number download_file) = false →
          record_kb download_title download_file search_kb = search_kb) := by
  intro t fs kb
  refine ⟨?_, ?_, ?_⟩
  · intro s hs hne
    have he := str_isEmpty_false_of_ne hne
    simp [record_kb, derived_page_kb, resolvedKb, hs, optTruthy, he]
  · intro h0 s hs hne
    have he := str_isEmpty_false_of_ne hne
    cases hk : titleKb t with
    | none => simp [record_kb, derived_page_kb, resolvedKb, hk, hs, optTruthy, he]
    | some s0 =>
      have hs0 : s0.isEmpty = true := by
        rw [hk] at h0
        simpa [optTruthy] using h0
      simp [record_kb, derived_page_kb, resolvedKb, hk, hs, optTruthy, he, hs0]
  · intro h0 h1
    cases hk : titleKb t with
    | none => simp [record_kb, derived_page_kb, resolvedKb, h0, h1, hk]
    | some s =>
      have hse : s.isEmpty = true := by
        have := h0
        rw [hk] at this
        simpa [optTruthy] using this
      simp [record_kb, derived_page_kb, resolvedKb, h0, h1, hk, hse]

/-- Claim C7 witness: the title
`"2024-01 Update for Windows (KB5034123)"` with no usable file names and
search KB `"9999999"` resolves to `"5034123"`. -/
theorem record_kb_priority_witness :
    record_kb "2024-01 Update for Windows (KB5034123)" [] "9999999" = "5034123" :=
  (record_kb_priority "2024-01 Update for Windows (KB5034123)" [] "9999999").1
    "5034123" (by decide) (by decide)

theorem append_three_ne_NA (x u : String) (hu : u.data.length = 3) (hne : u ≠ "N/A") :
    x ++ u ≠ "N/A" := by
  intro h
  have hd := congrArg String.data h
  rw [String.data_append] at hd
  have hlen := congrArg List.length hd
  rw [List.length_append, hu] at hlen
  have h3 : ("N/A" : String).data.length = 3 := by decide
  rw [h3] at hlen
  have hx : x.data = [] := List.length_eq_zero.mp (by omega)
  rw [hx, List.nil_append] at hd
  exact hne (str_eq_of_data_eq hd)

theorem convert_ne_NA (n : Int) : convert_bytes_to_human_readable n ≠ "N/A" := by
  unfold convert_bytes_to_human_readable
  by_cases h : (1073741824 : Int) ≤ n
  · rw [if_pos h]
    exact append_three_ne_NA _ _ (by decide) (by decide)
  · rw [if_neg h]
    exact append_three_ne_NA _ _ (by decide) (by decide)

theorem sumFileSizes_eq_mapM :
    ∀ ds : List PyDict,
      sumFileSizes ds =
        (optMapM (fun d => pyIntOfVal (pyGet d "size")) ds).map List.sum := by
  intro ds
  induction ds with
  | nil => rfl
  | cons d rest ih =>
    cases h1 : pyIntOfVal (pyGet d "size") with
    | none => simp [sumFileSizes, optMapM, h1]
    | some n =>
      cases h2 : optMapM (fun d => pyIntOfVal (pyGet d "size")) rest with
      | none =>
        have hs : sumFileSizes rest = none := by rw [ih, h2]; rfl
        simp [sumFileSizes, optMapM, h1, h2, hs]
      | some ns =>
        have hs : sumFileSizes rest = some ns.sum := by rw [ih, h2]; rfl
        simp [sumFileSizes, optMapM, h1, h2, hs]

theorem optMapM_eq_none_iff {α β : Type} {f : α → Option β} :
    ∀ xs : List α, optMapM f xs = none ↔ ∃ a ∈ xs, f a = none := by
  intro xs
  induction xs with
  | nil => simp [optMapM]
  | cons a as ih =>
    constructor
    · intro h
      cases h1 : f a with
      | none => exact ⟨a, by simp, h1⟩
      | some b =>
        cases h2 : optMapM f as with
        | none =>
          obtain ⟨x, hx, hfx⟩ := ih.mp h2
          exact ⟨x, by simp [hx], hfx⟩
        | some bs =>
          rw [optMapM, h1, h2] at h
          exact absurd h (by simp)
    · rintro ⟨x, hx, hfx⟩
      rcases List.mem_cons.mp hx with he | hm
      · subst he
        simp [optMapM, hfx]
      · have hn : optMapM f as = none := ih.mpr ⟨x, hm, hfx⟩
        rw [optMapM, hn]
        cases f a <;> rfl

/-- Claim C5: `get_update_size` renders the sum of the descriptors'
`"size"` values (through `convert_bytes_to_human_readable`, hence GB at
`2^30` and above, MB below) and answers the literal `"N/A"` exactly when
some descriptor's size is missing or fails integer conversion. -/
theorem get_update_size_sum_or_na :
    ∀ ds : List PyDict,
      (get_update_size ds = "N/A" ↔ ∃ d ∈ ds, pyIntOfVal (pyGet d "size") = none) ∧
      (∀ ns : List Int,
        optMapM (fun d => pyIntOfVal (pyGet d "size")) ds = some ns →
        get_update_size ds = convert_bytes_to_human_readable ns.sum) := by
  intro ds
  constructor
  · constructor
    · intro h
      cases hs : sumFileSizes ds with
      | some total =>
        unfold get_update_size at h
        rw [hs] at h
        exact absurd h (convert_ne_NA total)
      | none =>
        rw [sumFileSizes_eq_mapM] at hs
        have hn : optMapM (fun d => pyIntOfVal (pyGet d "size")) ds = none := by
          cases hm : optMapM (fun d => pyIntOfVal (pyGet d "size")) ds with
          | none => rfl
          | some ns => rw [hm] at hs; simp at hs
        exact (optMapM_eq_none_iff ds).mp hn
    · rintro ⟨d, hd, hfd⟩
      have hn : optMapM (fun d => pyIntOfVal (pyGet d "size")) ds = none :=
        (optMapM_eq_none_iff ds).mpr ⟨d, hd, hfd⟩
      have hs : sumFileSizes ds = none := by rw [sumFileSizes_eq_mapM, hn]; rfl
      unfold get_update_size
      rw [hs]
  · intro ns hns
    have hs : sumFileSizes ds = some ns.sum := by rw [sumFileSizes_eq_mapM, hns]; rfl
    unfold get_update_size
    rw [hs]

/-- Claim C5 witness: a non-numeric size gives `"N/A"`; the sample
descriptor (size `"1048576"`) sums to `1048576` and renders through
`convert_bytes_to_human_readable`. -/
theorem get_update_size_sum_or_na_witness :
    get_update_size [[("size", .vStr "oops")]] = "N/A" ∧
    get_update_size [sampleDescriptor] = convert_bytes_to_human_readable ([1048576] : List Int).sum := by
  constructor
  · exact (get_update_size_sum_or_na _).1.mpr ⟨[("size", .vStr "oops")], by simp, by rfl⟩
  · exact (get_update_size_sum_or_na _).2 [1048576] (by rfl)

theorem optMapM_mem {α β : Type} {f : α → Option β} :
    ∀ (xs : List α) (ys : List β), optMapM f xs = some ys →
      ∀ y ∈ ys, ∃ x ∈ xs, f x = some y := by
  intro xs
  induction xs with
  | nil =>
    intro ys h y hy
    simp [optMapM] at h
    subst h
    simp at hy
  | cons a as ih =>
    intro ys h y hy
    rw [optMapM] at h
    cases h1 : f a with
    | none => rw [h1] at h; exact absurd h (by simp)
    | some b =>
      cases h2 : optMapM f as with
      | none => rw [h1, h2] at h; exact absurd h (by simp)
      | some bs =>
        rw [h1, h2] at h
        have hys : ys = b :: bs := by
          injection h with h'
          exact h'.symm
        subst hys
        rcases List.mem_cons.mp hy with he | hm
        · subst he
          exact ⟨a, by simp, h1⟩
        · obtain ⟨x, hx, hfx⟩ := ih bs h2 y hm
          exact ⟨x, by simp [hx], hfx⟩

theorem mem_download_center_output :
    ∀ (updates : List ParsedUpdate) (kb : String) (rec : PyDict),
      rec ∈ get_microsoft_download_center_update updates kb →
      ∃ u ∈ updates, ∃ dls, optMapM augmentDescriptor u.download_info = some dls ∧
        rec = download_center_record u kb dls := by
  intro updates kb rec hrec
  cases updates with
  | nil => simp [get_microsoft_download_center_update] at hrec
  | cons u0 us =>
    simp only [get_microsoft_download_center_update] at hrec
    cases hm : optMapM
        (fun u => (optMapM augmentDescriptor u.download_info).map
          (download_center_record u kb)) (u0 :: us) with
    | none => rw [hm] at hrec; simp at hrec
    | some recs =>
      rw [hm] at hrec
      obtain ⟨u, hu, hfu⟩ := optMapM_mem _ recs hm rec hrec
      obtain ⟨dls, hdls, hrec'⟩ := Option.map_eq_some'.mp hfu
      exact ⟨u, hu, dls, hdls, hrec'.symm⟩

/-- Claim C9: every record of the download-center fallback path carries
classification `"Product Update"`, uninstallable `"Yes"`, connectivity
`"No"`, user input `"No"`, restart `"Yes"`, a support URL equal to
`"https://support.microsoft.com/help/"` followed by the record's KB, and
its KB falls back to the caller-supplied search KB exactly when no
(nonempty) KB was derived from the page. -/
theorem download_center_record_fields :
    ∀ (updates : List ParsedUpdate) (kb : String) (rec : PyDict),
      rec ∈ get_microsoft_download_center_update updates kb →
      ∃ u ∈ updates,
        pyGet rec "classification" = some (.vStr "Product Update") ∧
        pyGet rec "uninstallable" = some (.vStr "Yes") ∧
        pyGet rec "requires_connectivity" = some (.vStr "No") ∧
        pyGet rec "requires_user_input" = some (.vStr "No") ∧
        pyGet rec "requires_restart" = some (.vStr "Yes") ∧
        pyGet rec "kb" = some (.vStr (resolvedKb u.kb kb)) ∧
        pyGet rec "support_url" =
          some (.vStr ("https://support.microsoft.com/help/" ++ resolvedKb u.kb kb)) ∧
        (∀ s, u.kb = some s → s ≠ "" → resolvedKb u.kb kb = s) ∧
        ((u.kb = none ∨ u.kb = some "") → resolvedKb u.kb kb = kb) := by
  intro updates kb rec hrec
  obtain ⟨u, hu, dls, _hdls, hrec'⟩ := mem_download_center_output updates kb rec hrec
  subst hrec'
  refine ⟨u, hu, rfl, rfl, rfl, rfl, rfl, rfl, rfl, ?_, ?_⟩
  · intro s hs hne
    simp [resolvedKb, hs, str_isEmpty_false_of_ne hne]
  · have hemp : ("" : String).isEmpty = true := rfl
    rintro (h | h) <;> simp [resolvedKb, h, hemp]

/-- Claim C9 witness: the fallback output for the sample page (title KB
`5034123`) and search KB `"9999999"`. -/
theorem download_center_record_fields_witness :
    ∃ rec ∈ get_microsoft_download_center_update [sampleParsedUpdate] "9999999",
      pyGet rec "classification" = some (.vStr "Product Update") ∧
      pyGet rec "uninstallable" = some (.vStr "Yes") ∧
      pyGet rec "kb" = some (.vStr "5034123") ∧
      pyGet rec "support_url" = some (.vStr "https://support.microsoft.com/help/5034123") := by
  have heq : get_microsoft_download_center_update [sampleParsedUpdate] "9999999"
      = [download_center_record sampleParsedUpdate "9999999"
          [sampleDescriptor ++
            [("download_link", .vStr "https://download.microsoft.com/a/windows-kb5034123-x64.msu"),
             ("file_name", .vStr "windows-kb5034123-x64.msu")]]] := by rfl
  have hm : download_center_record sampleParsedUpdate "9999999"
      [sampleDescriptor ++
        [("download_link", .vStr "https://download.microsoft.com/a/windows-kb5034123-x64.msu"),
         ("file_name", .vStr "windows-kb5034123-x64.msu")]]
      ∈ get_microsoft_download_center_update [sampleParsedUpdate] "9999999" := by
    rw [heq]
    exact List.mem_singleton.mpr rfl
  obtain ⟨u, hu, h1, h2, _h3, _h4, _h5, h6, h7, _h8, _h9⟩ :=
    download_center_record_fields [sampleParsedUpdate] "9999999" _ hm
  rw [List.mem_singleton] at hu
  subst hu
  exact ⟨_, hm, h1, h2, h6, h7⟩

theorem mem_find_catalogue_output :
    ∀ (found : List UpdateData) (out : List PyDict) (rec : PyDict),
      find_microsoft_catelogue_updates found = some out → rec ∈ out →
      ∃ u ∈ found, rec = buildCatalogRecord u := by
  intro found out rec hout hrec
  unfold find_microsoft_catelogue_updates at hout
  cases hrecs : found.map buildCatalogRecord with
  | nil => rw [hrecs] at hout; exact absurd hout (by simp)
  | cons r0 rs =>
    rw [hrecs] at hout
    have hout' : some ((r0 :: rs).filter (fun r =>
        !((collected_super_seeds (r0 :: rs)).any
          (fun ss => pyStrEqVal ((pyGet r "title").getD .vNone) ss)))) = some out := hout
    have hfo : out = (r0 :: rs).filter (fun r =>
        !((collected_super_seeds (r0 :: rs)).any
          (fun ss => pyStrEqVal ((pyGet r "title").getD .vNone) ss))) := by
      injection hout' with h'
      exact h'.symm
    subst hfo
    have hrec3 : rec ∈ r0 :: rs := (List.mem_filter.mp hrec).1
    rw [← hrecs] at hrec3
    obtain ⟨u, hu, hbu⟩ := List.mem_map.mp hrec3
    exact ⟨u, hu, hbu.symm⟩

/-- Claim C2: every record of the catalog path and every record of the
fallback path carries all the flat field-set keys of the §3 invariant
(third key `update_id` on the catalog path, `kb_numbers` on the fallback
path), with `download_urls` a list on the catalog path and a
JSON-encoded string on the fallback path. -/
theorem all_records_have_flat_keys :
    (∀ (found : List UpdateData) (out : List PyDict) (rec : PyDict),
      find_microsoft_catelogue_updates found = some out → rec ∈ out →
      (claim_record_keys "update_id").all (fun k => (pyGet rec k).isSome) = true ∧
      ∃ l, pyGet rec "download_urls" = some (.vList l)) ∧
    (∀ (updates : List ParsedUpdate) (kb : String) (rec : PyDict),
      rec ∈ get_microsoft_download_center_update updates kb →
      (claim_record_keys "kb_numbers").all (fun k => (pyGet rec k).isSome) = true ∧
      ∃ s, pyGet rec "download_urls" = some (.vStr s)) := by
  constructor
  · intro found out rec hout hrec
    obtain ⟨u, _hu, hrec'⟩ := mem_find_catalogue_output found out rec hout hrec
    subst hrec'
    exact ⟨rfl, ⟨_, rfl⟩⟩
  · intro updates kb rec hrec
    obtain ⟨u, _hu, dls, _hdls, hrec'⟩ := mem_download_center_output updates kb rec hrec
    subst hrec'
    exact ⟨rfl, ⟨_, rfl⟩⟩

/-- Claim C2 witness: both paths at concrete inputs (one catalog record,
one fallback record). -/
theorem all_records_have_flat_keys_witness :
    ((claim_record_keys "update_id").all
      (fun k => (pyGet (buildCatalogRecord (sampleUpdate "Title A" (.vStr "None"))) k).isSome) = true ∧
     ∃ l, pyGet (buildCatalogRecord (sampleUpdate "Title A" (.vStr "None"))) "download_urls"
       = some (.vList l)) ∧
    ((claim_record_keys "kb_numbers").all
      (fun k => (pyGet (download_center_record sampleParsedUpdate "9999999"
        [sampleDescriptor ++
          [("download_link", .vStr "https://download.microsoft.com/a/windows-kb5034123-x64.msu"),
           ("file_name", .vStr "windows-kb5034123-x64.msu")]]) k).isSome) = true ∧
     ∃ s, pyGet (download_center_record sampleParsedUpdate "9999999"
        [sampleDescriptor ++
          [("download_link", .vStr "https://download.microsoft.com/a/windows-kb5034123-x64.msu"),
           ("file_name", .vStr "windows-kb5034123-x64.msu")]]) "download_urls"
       = some (.vStr s)) := by
  constructor
  · exact (all_records_have_flat_keys.1 [sampleUpdate "Title A" (.vStr "None")]
      [buildCatalogRecord (sampleUpdate "Title A" (.vStr "None"))]
      (buildCatalogRecord (sampleUpdate "Title A" (.vStr "None")))
      rfl (List.mem_singleton.mpr rfl))
  · refine all_records_have_flat_keys.2 [sampleParsedUpdate] "9999999" _ ?_
    have heq2 : get_microsoft_download_center_update [sampleParsedUpdate] "9999999"
        = [download_center_record sampleParsedUpdate "9999999"
            [sampleDescriptor ++
              [("download_link", .vStr "https://download.microsoft.com/a/windows-kb5034123-x64.msu"),
               ("file_name", .vStr "windows-kb5034123-x64.msu")]]] := by rfl
    rw [heq2]
    exact List.mem_singleton.mpr rfl

/-- Claim C1: `super_seeds_list` receives each record's WHOLE
`superseeds` value (`append`, not `extend`), and the filter compares the
record title with `==` against those whole values, so a title can never
match an entry inside a list-valued `superseeds`.  At this two-record
input the first record supersedes `"Title B"` and the second record is
titled `"Title B"`; the claim demands that the second record be dropped,
but the code keeps both records, while the spec-worded flattened filter
(`claim_filtered_updates`) keeps only one. -/
theorem catalogue_filter_keeps_superseded_title :
    (find_microsoft_catelogue_updates
      [sampleUpdate "Title A" (WindowsUpdate.superseeds (some "Title B")),
       sampleUpdate "Title B" (WindowsUpdate.superseeds none)]).map List.length = some 2 ∧
    pyGet (buildCatalogRecord
        (sampleUpdate "Title A" (WindowsUpdate.superseeds (some "Title B")))) "superseeds"
      = some (.vList [.vStr "Title B"]) ∧
    pyGet (buildCatalogRecord
        (sampleUpdate "Title B" (WindowsUpdate.superseeds none))) "title"
      = some (.vStr "Title B") ∧
    (claim_filtered_updates
      [sampleUpdate "Title A" (WindowsUpdate.superseeds (some "Title B")),
       sampleUpdate "Title B" (WindowsUpdate.superseeds none)]).length = 1 :=
  ⟨rfl, rfl, rfl, rfl⟩

theorem dropWhile_head_not :
    ∀ (l : List Char) (c : Char) (cs : List Char),
      l.dropWhile isPyWS = c :: cs → isPyWS c = false := by
  intro l
  induction l with
  | nil => intro c cs h; simp [List.dropWhile] at h
  | cons a as ih =>
    intro c cs h
    by_cases ha : isPyWS a = true
    · rw [List.dropWhile_cons, if_pos ha] at h
      exact ih c cs h
    · rw [List.dropWhile_cons, if_neg ha] at h
      have hac : a = c := (List.cons.injEq a as c cs ▸ h).1
      rw [← hac]
      cases hb : isPyWS a
      · rfl
      · exact absurd hb ha

theorem exists_not_ws_mem_stripChars :
    ∀ l : List Char, stripChars l ≠ [] → ∃ c ∈ stripChars l, isPyWS c = false := by
  intro l h
  unfold stripChars at *
  cases hc : (l.dropWhile isPyWS).reverse.dropWhile isPyWS with
  | nil => rw [hc] at h; simp at h
  | cons c cs =>
    have hcws : isPyWS c = false := dropWhile_head_not _ c cs hc
    refine ⟨c, ?_, hcws⟩
    exact List.mem_reverse.mpr (by simp)

theorem chStartsWith_decomp :
    ∀ (needle l : List Char), chStartsWith needle l = true →
      l = needle ++ l.drop needle.length := by
  intro needle
  induction needle with
  | nil => intro l _; simp
  | cons a as ih =>
    intro l h
    cases l with
    | nil => simp [chStartsWith] at h
    | cons b bs =>
      simp only [chStartsWith, Bool.and_eq_true, beq_iff_eq] at h
      obtain ⟨hab, hrest⟩ := h
      have htail := ih bs hrest
      rw [hab]
      simpa using congrArg (List.cons b) htail

theorem replaceChars_preserves_not_ws (needle repl : List Char)
    (hn : ∀ c ∈ needle, isPyWS c = true) :
    ∀ (fuel : Nat) (l : List Char) (c : Char), c ∈ l → isPyWS c = false →
      ∃ c' ∈ replaceChars needle repl fuel l, isPyWS c' = false := by
  intro fuel
  induction fuel with
  | zero =>
    intro l c hc hws
    cases l with
    | nil => simp at hc
    | cons a as => exact ⟨c, hc, hws⟩
  | succ fuel ih =>
    intro l c hc hws
    cases l with
    | nil => simp at hc
    | cons a as =>
      by_cases hstart : chStartsWith needle (a :: as) = true
      · have hdecomp := chStartsWith_decomp needle (a :: as) hstart
        have hcd : c ∈ List.drop needle.length (a :: as) := by
          have hc2 := hc
          rw [hdecomp] at hc2
          rcases List.mem_append.mp hc2 with h1 | h2
          · rw [hn c h1] at hws; exact absurd hws (by simp)
          · exact h2
        obtain ⟨c', hc', hws'⟩ := ih _ c hcd hws
        refine ⟨c', ?_, hws'⟩
        rw [replaceChars, if_pos hstart]
        exact List.mem_append.mpr (Or.inr hc')
      · rcases List.mem_cons.mp hc with he | hm
        · subst he
          refine ⟨c, ?_, hws⟩
          rw [replaceChars, if_neg hstart]
          exact List.mem_cons_self _ _
        · obtain ⟨c', hc', hws'⟩ := ih as c hm hws
          refine ⟨c', ?_, hws'⟩
          rw [replaceChars, if_neg hstart]
          exact List.mem_cons_of_mem _ hc'

theorem splitOnChar_ne_nil : ∀ (sep : Char) (l : List Char), splitOnChar sep l ≠ [] := by
  intro sep l
  cases l with
  | nil => simp [splitOnChar]
  | cons a as =>
    by_cases ha : (a == sep) = true <;>
      cases h : splitOnChar sep as <;>
        simp [splitOnChar, ha, h]

theorem mem_chunk_of_mem_split (sep : Char) :
    ∀ (l : List Char) (c : Char), c ∈ l → (c == sep) = false →
      ∃ chunk ∈ splitOnChar sep l, c ∈ chunk := by
  intro l
  induction l with
  | nil => intro c hc _; simp at hc
  | cons a as ih =>
    intro c hc hcn
    rcases List.mem_cons.mp hc with he | hm
    · subst he
      cases hr : splitOnChar sep as with
      | nil => exact absurd hr (splitOnChar_ne_nil sep as)
      | cons h t =>
        refine ⟨c :: h, ?_, by simp⟩
        simp [splitOnChar, hcn, hr]
    · obtain ⟨chunk, hchunk, hcm⟩ := ih c hm hcn
      by_cases ha : (a == sep) = true
      · refine ⟨chunk, ?_, hcm⟩
        simp [splitOnChar, ha]
        exact Or.inr hchunk
      · cases hr : splitOnChar sep as with
        | nil => exact absurd hr (splitOnChar_ne_nil sep as)
        | cons h t =>
          rw [hr] at hchunk
          rcases List.mem_cons.mp hchunk with hh | ht
          · subst hh
            refine ⟨a :: chunk, ?_, List.mem_cons_of_mem _ hcm⟩
            simp [splitOnChar, ha, hr]
          · refine ⟨chunk, ?_, hcm⟩
            simp [splitOnChar, ha, hr]
            exact Or.inr ht

theorem mem_dropWhile_of_not_ws :
    ∀ (l : List Char) (c : Char), isPyWS c = false → c ∈ l → c ∈ l.dropWhile isPyWS := by
  intro l
  induction l with
  | nil => intro c _ hc; simp at hc
  | cons a as ih =>
    intro c hws hc
    by_cases ha : isPyWS a = true
    · rw [List.dropWhile_cons, if_pos ha]
      rcases List.mem_cons.mp hc with he | hm
      · subst he; rw [hws] at ha; exact absurd ha (by simp)
      · exact ih c hws hm
    · rw [List.dropWhile_cons, if_neg ha]
      exact hc

theorem mem_stripChars_of_not_ws {c : Char} (hws : isPyWS c = false) :
    ∀ l : List Char, c ∈ l → c ∈ stripChars l := by
  intro l hc
  unfold stripChars
  have h1 : c ∈ l.dropWhile isPyWS := mem_dropWhile_of_not_ws l c hws hc
  have h2 : c ∈ (l.dropWhile isPyWS).reverse := List.mem_reverse.mpr h1
  have h3 : c ∈ (l.dropWhile isPyWS).reverse.dropWhile isPyWS :=
    mem_dropWhile_of_not_ws _ c hws h2
  exact List.mem_reverse.mpr h3

theorem superseeds_entries_ne_nil (raw : List Char) (h : stripChars raw ≠ []) :
    ((splitOnChar '\n'
        (replaceChars "\n\r\n".data " ".data (stripChars raw).length (stripChars raw))).map
      stripChars).filter (fun x => !x.isEmpty) ≠ [] := by
  obtain ⟨c, hc, hws⟩ := exists_not_ws_mem_stripChars raw h
  obtain ⟨c', hc', hws'⟩ :=
    replaceChars_preserves_not_ws "\n\r\n".data " ".data (by decide) _ _ c hc hws
  have hc'n : (c' == '\n') = false := by
    cases hb : c' == '\n'
    · rfl
    · have he : c' = '\n' := by simpa using hb
      rw [he] at hws'
      exact absurd hws' (by decide)
  obtain ⟨chunk, hchunk, hcm⟩ := mem_chunk_of_mem_split '\n' _ c' hc' hc'n
  have hmem2 : c' ∈ stripChars chunk := mem_stripChars_of_not_ws hws' chunk hcm
  have hne : (stripChars chunk).isEmpty = false := by
    cases hb : (stripChars chunk).isEmpty
    · rfl
    · rw [List.isEmpty_iff.mp hb] at hmem2
      simp at hmem2
  intro hnil
  have hin : stripChars chunk ∈
      ((splitOnChar '\n'
          (replaceChars "\n\r\n".data " ".data (stripChars raw).length (stripChars raw))).map
        stripChars).filter (fun x => !x.isEmpty) := by
    rw [List.mem_filter]
    exact ⟨List.mem_map.mpr ⟨chunk, hchunk, rfl⟩, by simp [hne]⟩
  rw [hnil] at hin
  simp at hin

/-- Claim C8 counterexample: on a present container with text
`"A\n\r\nB"` the code's `superseeds` first replaces `"\n\r\n"` by a
space and yields the single entry `["A B"]`, while the claim's plain
split-strip-drop prescription (`superseeds_claim_spec`) yields
`["A", "B"]`. -/
theorem superseeds_differs_from_plain_split :
    WindowsUpdate.superseeds (some "A\n\r\nB") = .vList [.vStr "A B"] ∧
    superseeds_claim_spec (some "A\n\r\nB") = .vList [.vStr "A", .vStr "B"] ∧
    WindowsUpdate.superseeds (some "A\n\r\nB") ≠ superseeds_claim_spec (some "A\n\r\nB") := by
  refine ⟨rfl, rfl, ?_⟩
  intro h
  rw [show WindowsUpdate.superseeds (some "A\n\r\nB") = .vList [.vStr "A B"] from rfl,
      show superseeds_claim_spec (some "A\n\r\nB") = .vList [.vStr "A", .vStr "B"] from rfl] at h
  simp at h

theorem superseedsCore_cons (c0 : Char) (cs0 raw : List Char)
    (hs : stripChars raw = c0 :: cs0) :
    superseedsCore raw =
      match (((splitOnChar '\n'
          (replaceChars "\n\r\n".data " ".data (c0 :: cs0).length (c0 :: cs0))).map
        stripChars).filter (fun x => !x.isEmpty)).map
          (fun x => x.filter (fun c => !(c == '\r'))) with
      | [] => .vStr (ofChars (replaceChars "\n\r\n".data " ".data (c0 :: cs0).length (c0 :: cs0)))
      | es => .vList (es.map (fun e => .vStr (ofChars e))) := by
  unfold superseedsCore
  rw [hs]

/-- Claim C8 (amended): `superseeds` is the literal `"None"` when the
`supersedesInfo` container is absent; the empty text when the container
is present but its stripped text is empty; and otherwise the stripped
container text with every `"\n\r\n"` first replaced by a space, then
split on newlines, each entry stripped, entries empty after stripping
dropped, and remaining carriage returns deleted — that entry list is
never empty, so the value is always the list in this case. -/
theorem superseeds_amended_cases :
    WindowsUpdate.superseeds none = .vStr "None" ∧
    (∀ raw : String, stripChars raw.data = [] →
      WindowsUpdate.superseeds (some raw) = .vStr "") ∧
    (∀ raw : String, stripChars raw.data ≠ [] →
      WindowsUpdate.superseeds (some raw) =
        .vList ((((((splitOnChar '\n'
            (replaceChars "\n\r\n".data " ".data (stripChars raw.data).length
              (stripChars raw.data))).map stripChars).filter
          (fun x => !x.isEmpty)).map (fun x => x.filter (fun c => !(c == '\r')))).map
            (fun e => .vStr (ofChars e))))) := by
  refine ⟨rfl, ?_, ?_⟩
  · intro raw h
    show superseedsCore raw.data = .vStr ""
    unfold superseedsCore
    rw [h]
  · intro raw h
    have hne := superseeds_entries_ne_nil raw.data h
    cases hs : stripChars raw.data with
    | nil => exact absurd hs h
    | cons c0 cs0 =>
      rw [hs] at hne
      show superseedsCore raw.data = _
      rw [superseedsCore_cons c0 cs0 raw.data hs]
      cases hE : (((splitOnChar '\n'
          (replaceChars "\n\r\n".data " ".data (c0 :: cs0).length (c0 :: cs0))).map
        stripChars).filter (fun x => !x.isEmpty)).map
          (fun x => x.filter (fun c => !(c == '\r'))) with
      | nil => exact absurd (List.map_eq_nil_iff.mp hE) hne
      | cons e es => rfl

/-- Claim C8 witness: the amended rule at the concrete container text
`"KB1 \n\r\nKB2\r\n KB3 "`. -/
theorem superseeds_amended_cases_witness :
    WindowsUpdate.superseeds (some "KB1 \n\r\nKB2\r\n KB3 ")
      = .vList [.vStr "KB1  KB2", .vStr "KB3"] := by
  have h := superseeds_amended_cases.2.2 "KB1 \n\r\nKB2\r\n KB3 " (by decide)
  exact h.trans (by rfl)
